import Mathlib

/-!
# Verification of the sphinx-click extension (`sphinx_click/ext.py`)

A shallow embedding of the single source file of the repository.  Python
strings are modelled as `List Char`; Python's `None`-able attributes as
`Option`; generators as the `List` of values they yield; exceptions as
`Except`.  Each embedded definition keeps the name of the Python function
it translates (module-level leading underscores preserved).
-/

namespace SphinxClick

/-- The Python string type is modelled as a list of characters. -/
abbrev Str := List Char

/-- Characters treated as whitespace by Python's `str.strip()` (the ASCII
whitespace set; the exotic unicode spaces are not modelled). -/
def isPySpace (c : Char) : Bool :=
  c = ' ' || c = '\t' || c = '\n' || c = '\r' || c = '\x0b' || c = '\x0c'

/-- Python `str.strip()`: remove whitespace from both ends. -/
def pyStrip (s : Str) : Str :=
  ((s.dropWhile isPySpace).reverse.dropWhile isPySpace).reverse

/-- Python `str.rstrip()`: remove trailing whitespace. -/
def pyRStrip (s : Str) : Str :=
  (s.reverse.dropWhile isPySpace).reverse

/-- Python `str.splitlines(keepends=True)`.  Line boundaries `\n`, `\r\n`
and `\r` are modelled (the exotic unicode boundaries are not). -/
def splitlinesKeepends : Str → List Str
  | [] => []
  | '\n' :: rest => ['\n'] :: splitlinesKeepends rest
  | '\r' :: '\n' :: rest => ['\r', '\n'] :: splitlinesKeepends rest
  | '\r' :: rest => ['\r'] :: splitlinesKeepends rest
  | c :: rest =>
    match splitlinesKeepends rest with
    | [] => [[c]]
    | l :: ls => (c :: l) :: ls

/-- Drop a single trailing line boundary from a chunk produced by
`splitlinesKeepends`. -/
def dropLineEnd (s : Str) : Str :=
  if h : s = [] then []
  else
    match s.getLast h with
    | '\n' =>
      match (s.dropLast).getLast? with
      | some '\r' => s.dropLast.dropLast
      | _ => s.dropLast
    | '\r' => s.dropLast
    | _ => s

/-- Python `str.splitlines()` (no keepends). -/
def splitlinesNoEnds (s : Str) : List Str :=
  (splitlinesKeepends s).map dropLineEnd

/-- `_indent` (ext.py lines 11-18): prepend `4*level` spaces to every
line whose `strip()` is non-empty; blank lines are passed through; lines
are split with `splitlines(True)` and re-joined. -/
def _indent (text : Str) (level : Nat := 1) : Str :=
  let pref : Str := List.replicate (4 * level) ' '
  ((splitlinesKeepends text).map
    (fun line => if pyStrip line = [] then line else pref ++ line)).flatten

example : splitlinesKeepends "a\nb".data = ["a\n".data, "b".data] := by decide
example : splitlinesKeepends "a\r\n\nb".data = ["a\r\n".data, "\n".data, "b".data] := by decide
example : _indent "ab\n\ncd\n".data 1 = "    ab\n\n    cd\n".data := by decide
example : _indent "ab\n  \ncd".data 2 = "        ab\n  \n        cd".data := by decide
example : pyStrip "  a b \t".data = "a b".data := by decide

/-- Python `str.expandtabs(tabWidth)`, tracking the current column. -/
def expandtabsAux (tw : Nat) : Nat → Str → Str
  | _, [] => []
  | col, c :: rest =>
    if c = '\t' then
      let n := tw - col % tw
      List.replicate n ' ' ++ expandtabsAux tw (col + n) rest
    else if c = '\n' || c = '\r' then c :: expandtabsAux tw 0 rest
    else c :: expandtabsAux tw (col + 1) rest

/-- Modelled external interface: docutils `statemachine.string2lines(s,
tab_width, convert_whitespace=True)`: replace `\v`/`\f` by spaces, split
into lines (no line ends), expand tabs and strip trailing whitespace. -/
def string2lines (s : Str) (tabWidth : Nat := 4) : List Str :=
  (splitlinesNoEnds (s.map (fun c => if c = '\x0b' || c = '\x0c' then ' ' else c))).map
    (fun l => pyRStrip (expandtabsAux tabWidth 0 l))

/-- Python `str.split(sep)` for a single-character separator (keeps empty
pieces, as Python does). -/
def splitOnChar (sep : Char) : Str → List Str
  | [] => [[]]
  | c :: rest =>
    if c = sep then [] :: splitOnChar sep rest
    else
      match splitOnChar sep rest with
      | [] => [[c]]
      | l :: ls => (c :: l) :: ls

example : splitOnChar ',' "c,x,a".data = ["c".data, "x".data, "a".data] := by decide
example : splitOnChar ',' "".data = [[]] := by decide
example : splitOnChar ',' ",a,".data = [[], "a".data, []] := by decide

/-- Python string `<=` (lexicographic by code point), used as the sort
order for `sorted(..., key=lambda item: item.name)`. -/
def strLe : Str → Str → Bool
  | [], _ => true
  | _ :: _, [] => false
  | a :: as, b :: bs => if a = b then strLe as bs else decide (a < b)

/-! ## Data model: the read-only Click object surface (spec §3) -/

/-- Variant tag of a Click `Parameter`. -/
inductive ParamKind : Type where
  | option
  | argument
deriving DecidableEq, Repr

/-- Rendered form of a Python default value: either the `str()` of a
scalar, or the list of `str()`s of the elements of a `list`/`tuple`. -/
inductive PyDefault : Type where
  | scalar (s : Str)
  | seq (ds : List Str)
deriving DecidableEq, Repr

/-- The fields of a Click `Option`/`Argument` that `ext.py` reads.
`metavar` stands for the result of the external `make_metavar()`;
`rich_help` is `none` when the attribute is absent. -/
structure Param : Type where
  kind : ParamKind
  human_readable_name : Str
  opts : List Str
  secondary_opts : List Str
  is_flag : Bool
  count : Bool
  metavar : Str
  help : Option Str
  rich_help : Option Str
  default : Option PyDefault
  show_default : Bool
  required : Bool
  envvar : Option Str
  nargs : Int
  hidden : Bool
deriving DecidableEq, Repr

/-- The fields of a Click `Command`/`Group` that `ext.py` reads.
`commands` is the name-to-subcommand mapping (a Python `dict`, modelled
as an association list in insertion order; empty for non-groups, which
matches the source's `getattr(ctx.command, 'commands', {})`).
`usagePieces` stands for the external `collect_usage_pieces(ctx)`. -/
inductive Cmd : Type where
  | mk (name : Str) (params : List Param) (commands : List (Str × Cmd))
       (help : Option Str) (short_help : Option Str) (usagePieces : List Str) : Cmd

/-- Name of a command. -/
def Cmd.name : Cmd → Str
  | .mk n _ _ _ _ _ => n

/-- Parameter list of a command. -/
def Cmd.params : Cmd → List Param
  | .mk _ ps _ _ _ _ => ps

/-- Subcommand mapping of a command. -/
def Cmd.commands : Cmd → List (Str × Cmd)
  | .mk _ _ cs _ _ _ => cs

/-- Help text of a command (`None` modelled as `none`). -/
def Cmd.help : Cmd → Option Str
  | .mk _ _ _ h _ _ => h

/-- Short help text of a command. -/
def Cmd.short_help : Cmd → Option Str
  | .mk _ _ _ _ sh _ => sh

/-- Usage pieces of a command (external `collect_usage_pieces`). -/
def Cmd.usagePieces : Cmd → List Str
  | .mk _ _ _ _ _ up => up

/-- The part of a `click.Context` that `ext.py` reads: the command and
the chain of invocation names from the root (whose space-join is
`command_path`). -/
structure Ctx : Type where
  command : Cmd
  pathNames : List Str

/-- Click's `Context.command_path`: the space-joined invocation chain. -/
def Ctx.command_path (ctx : Ctx) : Str :=
  List.intercalate " ".data ctx.pathNames

/-- `AbstractClickDirective._get_context` (ext.py lines 296-297):
`click.Context(command, info_name=name, parent=parent)`. -/
def _get_context (name : Str) (command : Cmd) (parent : Option Ctx := none) : Ctx :=
  ⟨command, (match parent with | some p => p.pathNames | none => []) ++ [name]⟩

/-! ## Help-Text Formatter (ext.py lines 21-166) -/

/-- `_get_usage` (ext.py lines 21-24). -/
def _get_usage (ctx : Ctx) : Str :=
  "**".data ++ ctx.command_path ++ "** ".data ++ List.intercalate " ".data ctx.command.usagePieces

/-- Modelled external interface: `click.formatting.join_options` joins the
given option spellings with `", "` (its stable sort by prefix length and
its slash-detection flag are behaviour of the external library and are
not modelled; the repository only uses the joined string). -/
def join_options (opts : List Str) : Str :=
  List.intercalate ", ".data opts

/-- `_write_opts` inside `_get_help_record` (ext.py lines 38-42). -/
def _write_opts (opt : Param) (os : List Str) : Str :=
  let rv := join_options os
  if !opt.is_flag && !opt.count then rv ++ [' '] ++ opt.metavar else rv

/-- Python rendering of `opt.default` inside `_get_help_record`:
`', '.join('%s' % d for d in default)` for a `list`/`tuple`, else
`'%s' % default`. -/
def renderDefault : PyDefault → Str
  | .scalar s => s
  | .seq ds => List.intercalate ", ".data ds

/-- `_get_help_record` (ext.py lines 27-60): returns the option label and
the help text with the `[default: ...; required]` annotation. -/
def _get_help_record (opt : Param) : Str × Str :=
  let rv := [_write_opts opt opt.opts] ++
    (if opt.secondary_opts ≠ [] then [_write_opts opt opt.secondary_opts] else [])
  let help0 : Str :=
    match opt.rich_help with
    | some r => r
    | none => opt.help.getD []
  let extra : List Str :=
    (if opt.default.isSome && opt.show_default then
      ["default: ".data ++ renderDefault (opt.default.getD (.scalar []))]
    else []) ++
    (if opt.required then ["required".data] else [])
  let help1 : Str :=
    if extra = [] then help0
    else (if help0 = [] then [] else help0 ++ "  ".data) ++
      "[".data ++ List.intercalate "; ".data extra ++ "]".data
  (List.intercalate ", ".data rv, help1)

/-- `_format_description` (ext.py lines 63-78): the command's help (or
short help) split into lines, dropping `\b` marker lines, ending with a
blank line; nothing when no help text exists. -/
def _format_description (ctx : Ctx) : List Str :=
  let help_string : Option Str :=
    match ctx.command.help with
    | some h => if h = [] then ctx.command.short_help else some h
    | none => ctx.command.short_help
  match help_string with
  | none => []
  | some hs =>
    if hs = [] then []
    else ((string2lines hs 4).filter (fun line => pyStrip line ≠ ['\x08'])) ++ [[]]

/-- `_format_usage` (ext.py lines 81-86). -/
def _format_usage (ctx : Ctx) : List Str :=
  [[]] ++ splitlinesNoEnds (_get_usage ctx) ++ [[]]

/-- `_format_option` (ext.py lines 89-98). -/
def _format_option (opt : Param) : List Str :=
  let hr := _get_help_record opt
  [".. option:: ".data ++ hr.1] ++
  (if hr.2 ≠ [] then [[]] ++ (string2lines hr.2 4).map (fun l => _indent l 1) else [])

/-- `_format_options` (ext.py lines 101-112): all non-hidden options,
each block followed by a blank line. -/
def _format_options (ctx : Ctx) : List Str :=
  let ps := ctx.command.params.filter (fun x => x.kind = ParamKind.option && !x.hidden)
  (ps.map (fun p => _format_option p ++ [[]])).flatten

/-- `_format_argument` (ext.py lines 115-121). -/
def _format_argument (arg : Param) : List Str :=
  [".. option:: ".data ++ arg.human_readable_name, [],
   _indent ((if arg.required then "Required".data else "Optional".data) ++
     " argument".data ++ (if arg.nargs ≠ 1 then "(s)".data else [])) 1]

/-- `_format_arguments` (ext.py lines 124-131). -/
def _format_arguments (ctx : Ctx) : List Str :=
  let ps := ctx.command.params.filter (fun x => x.kind = ParamKind.argument)
  (ps.map (fun p => _format_argument p ++ [[]])).flatten

/-- Truthiness of `getattr(x, 'envvar')` (Python: `None` and `''` are
falsy). -/
def envvarTruthy (p : Param) : Bool :=
  match p.envvar with
  | none => false
  | some s => s ≠ []

/-- `_format_envvar` (ext.py lines 134-145). -/
def _format_envvar (param : Param) : List Str :=
  [".. envvar:: ".data ++ param.envvar.getD [], [],
   _indent ("Provide a default for :option:`".data ++
     (match param.kind with
      | .argument => param.human_readable_name
      | .option => param.opts.headD []) ++ "`".data) 1]

/-- `_format_envvars` (ext.py lines 148-155). -/
def _format_envvars (ctx : Ctx) : List Str :=
  let ps := ctx.command.params.filter envvarTruthy
  (ps.map (fun p => _format_envvar p ++ [[]])).flatten

/-- `_format_subcommand` (ext.py lines 158-166). -/
def _format_subcommand (command : Cmd) : List Str :=
  [".. object:: ".data ++ command.name] ++
  (match command.short_help with
   | none => []
   | some sh =>
     if sh = [] then []
     else [[]] ++ (string2lines sh 4).map (fun l => _indent l 1))

/-- Lookup in a Python `dict` modelled as an association list (used for
`name in lookup` / `lookup[name]` and for module attribute access). -/
def assocLookup {α : Type} (m : List (Str × α)) (k : Str) : Option α :=
  (m.find? (fun p => p.1 = k)).map Prod.snd

/-- `_filter_commands` (ext.py lines 169-178): with no explicit list, all
subcommand values sorted by name; with an explicit comma-separated list,
the entries found in the mapping, in the order given. -/
def _filter_commands (ctx : Ctx) (commands : Option Str := none) : List Cmd :=
  match commands with
  | none =>
    (ctx.command.commands.map Prod.snd).mergeSort (fun a b => strLe a.name b.name)
  | some cs =>
    let names := (splitOnChar ',' cs).map pyStrip
    names.filterMap (fun name => assocLookup ctx.command.commands name)

/-! ## Command Renderer (ext.py lines 181-254) -/

/-- `_format_command` (ext.py lines 181-254): the full per-command markup
block, with each section heading emitted only when its block is
non-empty, and the Commands section skipped when `show_nested`. -/
def _format_command (ctx : Ctx) (show_nested : Bool) (commands : Option Str := none) :
    List Str :=
  [".. program:: ".data ++ ctx.command_path, []] ++
  ["Synopsis".data, "--------".data, []] ++ _format_usage ctx ++
  ["Description".data, "-----------".data, []] ++ _format_description ctx ++
  (let lines := _format_options ctx
   (if lines ≠ [] then ["Options".data, "-------".data, []] else []) ++ lines) ++
  (let lines := _format_arguments ctx
   (if lines ≠ [] then ["Arguments".data, "---------".data, []] else []) ++ lines) ++
  (let lines := _format_envvars ctx
   (if lines ≠ [] then ["Environment variables".data, "---------------------".data, []]
    else []) ++ lines) ++
  (if show_nested then []
   else
     let cmds := _filter_commands ctx commands
     (if cmds.isEmpty then [] else ["Commands".data, "--------".data, []]) ++
     (cmds.map (fun command => _format_subcommand command ++ [[]])).flatten)

/-! ## Module Resolver (ext.py lines 264-294) -/

/-- Python run-time values that matter to the directives: a Click command
object, a string, `None`, or anything else. -/
inductive PyVal : Type where
  | cmd (c : Cmd)
  | strV (s : Str)
  | pynone
  | other (n : Nat)

/-- Attribute table of an imported Python module. -/
structure PyModule : Type where
  attrs : List (Str × PyVal)

/-- Outcome of `__import__(module_name, ...)`: success, a `SystemExit`
raised by the module, or any other exception (with its formatted
traceback). -/
inductive ImportResult : Type where
  | ok (m : PyModule)
  | exit
  | exc (tb : Str)

/-- The import machinery is external; a run of the resolver is modelled
against an arbitrary import environment. -/
abbrev ImportEnv := Str → ImportResult

/-- Python `s.split(':', 1)` viewed as a partial split at the first
colon; `none` when the string has no colon (in which case the 2-tuple
unpacking in the source raises `ValueError`). -/
def splitFirstColon : Str → Option (Str × Str)
  | [] => none
  | c :: rest =>
    if c = ':' then some ([], rest)
    else
      match splitFirstColon rest with
      | none => none
      | some (m, a) => some (c :: m, a)

/-- The three error branches of `_load_module`, each carrying the exact
message the source formats (spec taxonomy: `MalformedReference`,
`ImportFailure`, `AttributeMissing`). -/
inductive LoadErr : Type where
  | malformedReference (msg : Str)
  | importFailure (msg : Str)
  | attributeMissing (msg : Str)
deriving DecidableEq, Repr

/-- `AbstractClickDirective._load_module` (ext.py lines 264-294). -/
def _load_module (imp : ImportEnv) (module_path : Str) : Except LoadErr PyVal :=
  match splitFirstColon module_path with
  | none =>
    .error (.malformedReference
      ("\"".data ++ module_path ++ "\" is not of format \"module:parser\"".data))
  | some (module_name, attr_name) =>
    match imp module_name with
    | .exit =>
      .error (.importFailure
        ("Failed to import \"".data ++ attr_name ++ "\" from \"".data ++ module_name ++
         "\". ".data ++ "The module appeared to call sys.exit()".data))
    | .exc tb =>
      .error (.importFailure
        ("Failed to import \"".data ++ attr_name ++ "\" from \"".data ++ module_name ++
         "\". ".data ++ "The following exception was raised:\n".data ++ tb))
    | .ok mod =>
      match assocLookup mod.attrs attr_name with
      | none =>
        .error (.attributeMissing
          ("Module \"".data ++ module_name ++ "\" has no attribute \"".data ++
           attr_name ++ "\"".data))
      | some v => .ok v

/-! ## Directive Dispatchers (ext.py lines 300-420) -/

/-- Sphinx's `env.temp_data` after zero or more `ChainMap` pushes: a
stack of key-value maps, searched front to back; `get` of an absent key
is Python `None`. -/
abbrev TempData := List (List (Str × PyVal))

/-- ChainMap lookup over the stack of maps. -/
def tdGet (td : TempData) (k : Str) : Option PyVal :=
  match td with
  | [] => none
  | m :: rest =>
    match assocLookup m k with
    | some v => some v
    | none => tdGet rest k

/-- A document node produced by handing a block of markup lines to the
external `nested_parse_with_titles`; the parse itself is external, so a
node is identified with the lines it was parsed from. -/
inductive RNode : Type where
  | parsed (lines : List Str)

/-- Membership of a selected subcommand in the mapping's value list. -/
theorem mem_filter_commands {ctx : Ctx} {cs : Option Str} {c : Cmd}
    (h : c ∈ _filter_commands ctx cs) : c ∈ ctx.command.commands.map Prod.snd := by
  cases cs with
  | none =>
    unfold _filter_commands at h
    exact ((ctx.command.commands.map Prod.snd).mergeSort_perm
      (fun a b => strLe a.name b.name)).mem_iff.mp h
  | some s =>
    unfold _filter_commands at h
    simp only [List.mem_filterMap] at h
    obtain ⟨name, _, hl⟩ := h
    unfold assocLookup at hl
    match hf : (ctx.command.commands).find? (fun p => p.1 = name) with
    | none => rw [hf] at hl; simp at hl
    | some p =>
      rw [hf] at hl
      simp only [Option.map_some', Option.some.injEq] at hl
      subst hl
      exact List.mem_map_of_mem Prod.snd (List.mem_of_find?_eq_some hf)

/-- Size bound justifying the recursion of the Tree Walker. -/
theorem sizeOf_lt_of_mem_commands {c cmd : Cmd}
    (h : c ∈ cmd.commands.map Prod.snd) : sizeOf c < sizeOf cmd := by
  obtain ⟨p, hmem, hc⟩ := List.mem_map.mp h
  match cmd with
  | .mk n ps cs hh sh up =>
    simp only [Cmd.commands] at hmem
    have h1 : sizeOf p < sizeOf cs := List.sizeOf_lt_of_mem hmem
    have h2 : sizeOf c < sizeOf p := by
      rcases p with ⟨k, c'⟩
      cases hc
      simp
    have h3 : sizeOf cs < sizeOf (Cmd.mk n ps cs hh sh up) := by
      simp [Cmd.mk.sizeOf_spec]
      omega
    omega

/-- `ClickDirective._generate_nodes` (ext.py lines 310-351), the Tree
Walker: parse this command's block, and if `show_nested`, recurse into
the selected subcommands — the recursive call passes `show_nested` only,
so `commands` takes its default `None` below the top level. -/
def ClickDirective_generate_nodes (name : Str) (command : Cmd) (parent : Option Ctx)
    (show_nested : Bool) (commands : Option Str := none) : List RNode :=
  let ctx := _get_context name command parent
  RNode.parsed (_format_command ctx show_nested commands) ::
  (if show_nested then
    ((_filter_commands ctx commands).attach.map
      (fun c => ClickDirective_generate_nodes c.1.name c.1 (some ctx) show_nested)).flatten
   else [])
termination_by sizeOf command
decreasing_by
  exact sizeOf_lt_of_mem_commands (mem_filter_commands c.2)

/-- The click-prog/click-command frame pushed by `ClickDirective.run`
(ext.py lines 365-369). -/
def pushClickFrame (command : PyVal) (prog_name : Str) (td : TempData) : TempData :=
  [("click:command".data, command), ("click:prog".data, PyVal.strV prog_name)] :: td

/-- Options accepted by the `click` directive. -/
structure ClickOpts : Type where
  prog : Option Str
  show_nested : Bool
  auto : Bool
  commands : Option Str

/-- Directive-level failures of the dispatchers (each aborts the
directive with a message; the variants tag the source's error sites). -/
inductive RunErr : Type where
  | directiveError (e : LoadErr)
  | missingProg
  | missingContext
  | notACommand
  | walkerFailed (msg : Str)

/-- `ClickDirective.run` (ext.py lines 353-375), parametrised by the body
invoked under `try/finally` (the real body — `_generate_nodes` plus the
external nested parse — may raise; `walker` ranges over any such body,
receiving the temp-data in effect while it runs).  Returns the
directive's outcome and the final `temp_data`. -/
def ClickDirective_run
    (walker : Str → PyVal → Bool → Option Str → TempData → Except RunErr (List RNode))
    (imp : ImportEnv) (argument : Str) (opts : ClickOpts) (td : TempData) :
    Except RunErr (List RNode) × TempData :=
  match _load_module imp argument with
  | .error e => (.error (.directiveError e), td)
  | .ok command =>
    match opts.prog with
    | none => (.error .missingProg, td)
    | some prog_name =>
      let td2 := pushClickFrame command prog_name td
      let result := walker prog_name command opts.show_nested opts.commands td2
      (result, td2.tail)

/-- The non-raising instantiation of the walker body: dynamic dispatch on
the loaded value (a non-command loaded value fails only here, when the
renderer first touches command-shaped fields). -/
def defaultWalker (prog_name : Str) (v : PyVal) (show_nested : Bool)
    (commands : Option Str) (_ : TempData) : Except RunErr (List RNode) :=
  match v with
  | .cmd c => .ok (ClickDirective_generate_nodes prog_name c none show_nested commands)
  | _ => .error .notACommand

/-- `ClickOptionsDirective._generate_nodes` (ext.py lines 386-399):
options-only rendering. -/
def ClickOptionsDirective_generate_nodes (prog_name : Str) (command : Cmd) : List RNode :=
  let ctx := _get_context prog_name command none
  [RNode.parsed (_format_options ctx)]

/-- `ClickOptionsDirective.run` (ext.py lines 401-420): resolve the
command from the optional argument or from `temp_data`, resolve the
program name, fail when the command is `None` (`MissingContext`), else
render the options. -/
def ClickOptionsDirective_run (imp : ImportEnv) (args : List Str)
    (progOpt : Option Str) (td : TempData) : Except RunErr (List RNode) :=
  let commandE : Except RunErr PyVal :=
    match args with
    | arg :: _ => (_load_module imp arg).mapError RunErr.directiveError
    | [] => .ok ((tdGet td "click:command".data).getD PyVal.pynone)
  match commandE with
  | .error e => .error e
  | .ok command =>
    let prog_name : Str :=
      match progOpt with
      | some p => p
      | none =>
        match tdGet td "click:prog".data with
        | some (.strV s) => s
        | _ => []
    match command with
    | .pynone => .error .missingContext
    | .cmd c => .ok (ClickOptionsDirective_generate_nodes prog_name c)
    | _ => .error .notACommand

/-! ## General helper lemmas -/

theorem intercalate_singleton (sep a : Str) : List.intercalate sep [a] = a := by
  simp [List.intercalate]

theorem intercalate_pair (sep a b : Str) :
    List.intercalate sep [a, b] = a ++ sep ++ b := by
  simp [List.intercalate, List.intersperse]

theorem strLe_total : ∀ a b : Str, strLe a b || strLe b a
  | [], _ => by simp [strLe]
  | _ :: _, [] => by simp [strLe]
  | a :: as, b :: bs => by
    by_cases h : a = b
    · subst h
      simpa [strLe] using strLe_total as bs
    · rcases lt_or_gt_of_ne h with h' | h' <;>
        simp [strLe, h, Ne.symm h, h', le_of_lt, not_lt_of_gt]

theorem strLe_trans : ∀ a b c : Str, strLe a b → strLe b c → strLe a c
  | [], _, _ => by simp [strLe]
  | _ :: _, [], _ => by simp [strLe]
  | x :: xs, y :: ys, [] => by simp [strLe]
  | x :: xs, y :: ys, z :: zs => by
    by_cases hxy : x = y <;> by_cases hyz : y = z
    · subst hxy; subst hyz
      simpa [strLe] using strLe_trans xs ys zs
    · subst hxy
      simp [strLe, hyz]
    · subst hyz
      simp only [strLe, if_neg hxy]
      exact fun h _ => h
    · by_cases hxz : x = z
      · subst hxz
        simp only [strLe, if_neg hxy, if_neg hyz]
        intro h1 h2
        exact absurd (lt_trans (of_decide_eq_true h1) (of_decide_eq_true h2))
          (lt_irrefl x)
      · simp only [strLe, if_neg hxy, if_neg hyz, if_neg hxz]
        intro h1 h2
        exact decide_eq_true (lt_trans (of_decide_eq_true h1) (of_decide_eq_true h2))

theorem mergeSort_pair {α : Type} (le : α → α → Bool) (a b : α) :
    List.mergeSort [a, b] le = if le a b then [a, b] else [b, a] := by
  rw [List.mergeSort]
  simp [List.splitInTwo, List.merge]

/-! ## Claim C2: subcommand selection -/

/-- Specification-side formulation of the explicit-list selection policy
(spec §4.2): walk the name list in order, keep each named entry found in
the mapping, silently drop the rest. -/
def subcommandSelectionSpec (m : List (Str × Cmd)) : List Str → List Cmd
  | [] => []
  | n :: rest =>
    match assocLookup m n with
    | some c => c :: subcommandSelectionSpec m rest
    | none => subcommandSelectionSpec m rest

theorem filterMap_lookup_eq_selectionSpec (m : List (Str × Cmd)) :
    ∀ ns : List Str, ns.filterMap (fun n => assocLookup m n) = subcommandSelectionSpec m ns
  | [] => rfl
  | n :: rest => by
    unfold subcommandSelectionSpec
    cases h : assocLookup m n <;>
      simp [List.filterMap_cons, h, filterMap_lookup_eq_selectionSpec m rest]

/-- Example commands for the concrete selection tests. -/
def leafCmd (n : Str) : Cmd := .mk n [] [] none none []

/-- Example group with subcommand mapping `{a, b, c}`. -/
def cmdABC : Cmd :=
  .mk "cli".data []
    [("a".data, leafCmd "a".data), ("b".data, leafCmd "b".data),
     ("c".data, leafCmd "c".data)] none none []

/-- Example group with subcommand mapping `{b, a}` (in that insertion
order). -/
def cmdBA : Cmd :=
  .mk "cli".data []
    [("b".data, leafCmd "b".data), ("a".data, leafCmd "a".data)] none none []

/-- C2: subcommand selection (`_filter_commands`).  With an explicit
comma-separated list, the result is exactly the named entries that exist
in the mapping, in the order given, unmatched names silently dropped;
with no list, the result is a permutation of all subcommands that is
sorted by name.  Mapping `{a,b,c}` with list `"c,x,a"` yields `[c, a]`;
mapping `{b, a}` with no list yields `[a, b]`. -/
theorem claim_C2 :
    (∀ (ctx : Ctx) (s : Str),
      _filter_commands ctx (some s) =
        subcommandSelectionSpec ctx.command.commands
          ((splitOnChar ',' s).map pyStrip)) ∧
    (∀ ctx : Ctx,
      (_filter_commands ctx none).Perm (ctx.command.commands.map Prod.snd) ∧
      (_filter_commands ctx none).Pairwise (fun a b => strLe a.name b.name)) ∧
    ((_filter_commands ⟨cmdABC, ["cli".data]⟩ (some "c,x,a".data)).map Cmd.name
      = ["c".data, "a".data]) ∧
    ((_filter_commands ⟨cmdBA, ["cli".data]⟩ none).map Cmd.name
      = ["a".data, "b".data]) := by
  refine ⟨fun ctx s => ?_, fun ctx => ⟨?_, ?_⟩, ?_, ?_⟩
  · unfold _filter_commands
    exact filterMap_lookup_eq_selectionSpec _ _
  · exact List.mergeSort_perm _ _
  · exact List.sorted_mergeSort
      (fun a b c => strLe_trans a.name b.name c.name)
      (fun a b => strLe_total a.name b.name) _
  · decide
  · unfold _filter_commands
    rw [show (⟨cmdBA, ["cli".data]⟩ : Ctx).command.commands.map Prod.snd
        = [leafCmd "b".data, leafCmd "a".data] from rfl]
    rw [mergeSort_pair]
    decide

/-! ## Claim C3: option help annotation -/

/-- Example option with `default=[1,2]`, `show_default=True`,
`required=False` and no help text. -/
def optDefault12 : Param :=
  { kind := .option, human_readable_name := [], opts := ["--foo".data],
    secondary_opts := [], is_flag := false, count := false,
    metavar := "FOO".data, help := none, rich_help := none,
    default := some (.seq ["1".data, "2".data]), show_default := true,
    required := false, envvar := none, nargs := 1, hidden := false }

/-- Example option with `required=True` and no default. -/
def optRequired : Param :=
  { optDefault12 with default := none, show_default := false, required := true }

/-- C3: option help annotation (`_get_help_record`).  A `default: <value>`
annotation appears only when a default is set and `show_default` holds
(sequence defaults comma-joined); the word `required` appears when the
option is mandatory; several annotations are joined with `"; "` inside
one pair of square brackets (two spaces after a non-empty help text).
With no help text: `[default: 1, 2]`, `[required]`, and
`[default: X; required]` in the combined case. -/
theorem claim_C3 :
    (∀ opt : Param, opt.rich_help = none → opt.help = none →
      ((∀ d, opt.default = some d → opt.show_default = true → opt.required = false →
        (_get_help_record opt).2 = "[default: ".data ++ renderDefault d ++ "]".data) ∧
       ((opt.default = none ∨ opt.show_default = false) → opt.required = true →
        (_get_help_record opt).2 = "[required]".data) ∧
       (∀ d, opt.default = some d → opt.show_default = true → opt.required = true →
        (_get_help_record opt).2 =
          "[default: ".data ++ renderDefault d ++ "; required]".data) ∧
       ((opt.default = none ∨ opt.show_default = false) → opt.required = false →
        (_get_help_record opt).2 = []))) ∧
    (∀ (opt : Param) (h d : Str), opt.rich_help = none → opt.help = some h → h ≠ [] →
      opt.default = some (.scalar d) → opt.show_default = true → opt.required = true →
      (_get_help_record opt).2 =
        h ++ "  ".data ++ "[default: ".data ++ d ++ "; required]".data) ∧
    (_get_help_record optDefault12).2 = "[default: 1, 2]".data ∧
    (_get_help_record optRequired).2 = "[required]".data := by
  refine ⟨fun opt hrich hhelp => ⟨fun d hd hsd hr => ?_, fun hd hr => ?_,
    fun d hd hsd hr => ?_, fun hd hr => ?_⟩, fun opt h d hrich hhelp hne hd hsd hr => ?_,
    by decide, by decide⟩
  · simp [_get_help_record, hrich, hhelp, hd, hsd, hr, intercalate_singleton]
  · rcases hd with hd | hd <;>
      simp [_get_help_record, hrich, hhelp, hd, hr, intercalate_singleton]
  · simp [_get_help_record, hrich, hhelp, hd, hsd, hr, intercalate_pair, renderDefault]
  · rcases hd with hd | hd <;>
      simp [_get_help_record, hrich, hhelp, hd, hr]
  · simp [_get_help_record, hrich, hhelp, hne, hd, hsd, hr, intercalate_pair,
      renderDefault]

/-- Witness for C3 at a concrete option with help text, a shown scalar
default and `required=True`. -/
theorem claim_C3_witness :
    (_get_help_record
      { optDefault12 with
        help := some "Helpful.".data
        default := some (.scalar "X".data)
        required := true }).2 =
      "Helpful.".data ++ "  ".data ++ "[default: ".data ++ "X".data ++
        "; required]".data :=
  claim_C3.2.1 _ "Helpful.".data "X".data rfl rfl (by decide) rfl rfl rfl

/-! ## Claims C4 and C10: module resolver error discrimination -/

theorem splitFirstColon_eq_none {s : Str} : splitFirstColon s = none ↔ ':' ∉ s := by
  induction s with
  | nil => simp [splitFirstColon]
  | cons c rest ih =>
    by_cases hc : c = ':'
    · subst hc
      simp [splitFirstColon]
    · rw [splitFirstColon, if_neg hc]
      cases h : splitFirstColon rest with
      | none => simp [List.mem_cons, hc, Ne.symm hc, ← ih, h]
      | some p =>
        rcases p with ⟨m, a⟩
        simp only [List.mem_cons]
        constructor
        · intro habs
          exact absurd habs (by simp)
        · intro habs
          have : ':' ∈ rest := by
            by_contra hn
            rw [← ih] at hn
            rw [hn] at h
            exact Option.noConfusion h
          exact absurd (Or.inr this) habs

theorem splitFirstColon_append {m a : Str} (hm : ':' ∉ m) :
    splitFirstColon (m ++ ':' :: a) = some (m, a) := by
  induction m with
  | nil => simp [splitFirstColon]
  | cons c rest ih =>
    have hc : c ≠ ':' := fun h => hm (h ▸ List.mem_cons_self c rest)
    have hrest : ':' ∉ rest := fun h => hm (List.mem_cons_of_mem c h)
    simp only [List.cons_append, splitFirstColon, if_neg hc, List.append_eq]
    rw [ih hrest]

/-- C4: `_load_module` error discrimination.  With no colon, a
`MalformedReference` error quoting the path; with a failing import, an
`ImportFailure` whose message distinguishes a `SystemExit` from a
generic exception; with a successful import but a missing attribute, an
`AttributeMissing` message containing both names verbatim; otherwise
the attribute value. -/
theorem claim_C4 (imp : ImportEnv) (path : Str) :
    (':' ∉ path →
      _load_module imp path = .error (.malformedReference
        ("\"".data ++ path ++ "\" is not of format \"module:parser\"".data))) ∧
    (∀ m a, splitFirstColon path = some (m, a) →
      ((imp m = .exit →
        _load_module imp path = .error (.importFailure
          ("Failed to import \"".data ++ a ++ "\" from \"".data ++ m ++
           "\". ".data ++ "The module appeared to call sys.exit()".data))) ∧
       (∀ tb, imp m = .exc tb →
        _load_module imp path = .error (.importFailure
          ("Failed to import \"".data ++ a ++ "\" from \"".data ++ m ++
           "\". ".data ++ "The following exception was raised:\n".data ++ tb))) ∧
       (∀ mod, imp m = .ok mod → assocLookup mod.attrs a = none →
        _load_module imp path = .error (.attributeMissing
          ("Module \"".data ++ m ++ "\" has no attribute \"".data ++
           a ++ "\"".data))) ∧
       (∀ mod v, imp m = .ok mod → assocLookup mod.attrs a = some v →
        _load_module imp path = .ok v))) := by
  refine ⟨fun hnc => ?_, fun m a hsplit =>
    ⟨fun hexit => ?_, fun tb hexc => ?_, fun mod hok hmiss => ?_,
     fun mod v hok hfound => ?_⟩⟩
  · rw [_load_module, splitFirstColon_eq_none.mpr hnc]
  · rw [_load_module, hsplit]
    simp only [hexit]
  · rw [_load_module, hsplit]
    simp only [hexc]
  · rw [_load_module, hsplit]
    simp only [hok, hmiss]
  · rw [_load_module, hsplit]
    simp only [hok, hfound]

/-- Import environment for the resolver witnesses: module `pkg.mod`
exists with a single attribute `thing`; importing anything else raises a
generic exception. -/
def impEx : ImportEnv := fun m =>
  if m = "pkg.mod".data then .ok ⟨[("thing".data, .other 7)]⟩
  else .exc "Traceback".data

/-- Witness for C4: the three failure branches and the success branch of
the resolver, each at a concrete input under `impEx`. -/
theorem claim_C4_witness :
    _load_module impEx "nocolon".data = .error (.malformedReference
      ("\"".data ++ "nocolon".data ++
       "\" is not of format \"module:parser\"".data)) ∧
    _load_module impEx "bad:thing".data = .error (.importFailure
      ("Failed to import \"".data ++ "thing".data ++ "\" from \"".data ++
       "bad".data ++ "\". ".data ++
       "The following exception was raised:\n".data ++ "Traceback".data)) ∧
    _load_module impEx "pkg.mod:missing".data = .error (.attributeMissing
      ("Module \"".data ++ "pkg.mod".data ++
       "\" has no attribute \"".data ++ "missing".data ++ "\"".data)) ∧
    _load_module impEx "pkg.mod:thing".data = .ok (.other 7) :=
  ⟨(claim_C4 impEx "nocolon".data).1 (by decide),
   ((claim_C4 impEx "bad:thing".data).2 "bad".data "thing".data
     (by decide)).2.1 "Traceback".data rfl,
   ((claim_C4 impEx "pkg.mod:missing".data).2 "pkg.mod".data "missing".data
     (by decide)).2.2.1 ⟨[("thing".data, .other 7)]⟩ rfl rfl,
   ((claim_C4 impEx "pkg.mod:thing".data).2 "pkg.mod".data "thing".data
     (by decide)).2.2.2 ⟨[("thing".data, .other 7)]⟩ (.other 7) rfl rfl⟩

/-- C10: a reference with a colon but an empty part is not rejected as
malformed.  `<module>:` passes the format check and fails at the
attribute lookup; `:<attr>` fails at the import step; the
`MalformedReference` branch is taken exactly when the string has no
colon. -/
theorem claim_C10 :
    (∀ (imp : ImportEnv) (mstr : Str), ':' ∉ mstr →
      ∀ mod, imp mstr = .ok mod → assocLookup mod.attrs [] = none →
        _load_module imp (mstr ++ [':']) = .error (.attributeMissing
          ("Module \"".data ++ mstr ++ "\" has no attribute \"\"".data))) ∧
    (∀ (imp : ImportEnv) (astr tb : Str), imp [] = .exc tb →
      _load_module imp (':' :: astr) = .error (.importFailure
        ("Failed to import \"".data ++ astr ++ "\" from \"\". ".data ++
         "The following exception was raised:\n".data ++ tb))) ∧
    (∀ (imp : ImportEnv) (p : Str),
      (∃ msg, _load_module imp p = .error (.malformedReference msg)) ↔ ':' ∉ p) := by
  refine ⟨fun imp mstr hnc mod hok hmiss => ?_, fun imp astr tb hexc => ?_,
    fun imp p => ⟨?_, fun hnc => ?_⟩⟩
  · rw [_load_module, splitFirstColon_append hnc]
    simp only [hok, hmiss]
    simp
  · rw [show (':' :: astr : Str) = [] ++ ':' :: astr from rfl,
      _load_module, splitFirstColon_append (by simp)]
    simp only [hexc]
    simp
  · rintro ⟨msg, h⟩
    by_contra hmem
    obtain ⟨⟨m, a⟩, hsplit⟩ : ∃ q, splitFirstColon p = some q := by
      cases hq : splitFirstColon p with
      | none => exact absurd hmem (splitFirstColon_eq_none.mp hq)
      | some q => exact ⟨q, rfl⟩
    rw [_load_module, hsplit] at h
    cases himp : imp m with
    | exit => simp [himp] at h
    | exc tb => simp [himp] at h
    | ok mod =>
      cases hl : assocLookup mod.attrs a with
      | none => simp [himp, hl] at h
      | some v => simp [himp, hl] at h
  · exact ⟨_, by rw [_load_module, splitFirstColon_eq_none.mpr hnc]⟩

/-- Witness for C10: under `impEx`, the reference with an empty
attribute name fails with AttributeMissing, the reference with an empty
module path fails at the importing step, and a colon-free reference is
malformed. -/
theorem claim_C10_witness :
    _load_module impEx ("pkg.mod".data ++ [':']) = .error (.attributeMissing
      ("Module \"".data ++ "pkg.mod".data ++
       "\" has no attribute \"\"".data)) ∧
    _load_module impEx (':' :: "thing".data) = .error (.importFailure
      ("Failed to import \"".data ++ "thing".data ++ "\" from \"\". ".data ++
       "The following exception was raised:\n".data ++ "Traceback".data)) ∧
    (∃ msg, _load_module impEx "nocolon".data =
      .error (.malformedReference msg)) :=
  ⟨claim_C10.1 impEx "pkg.mod".data (by decide) ⟨[("thing".data, .other 7)]⟩
     rfl rfl,
   claim_C10.2.1 impEx "thing".data "Traceback".data rfl,
   (claim_C10.2.2 impEx "nocolon".data).mpr (by decide)⟩

/-! ## Claim C6: shared build state atomicity -/

/-- C6: `ClickDirective.run` restores `temp_data` on every exit path —
load failure, missing `:prog:`, and after the walker body whether it
returns or fails (the walker is arbitrary, so this covers a body that
raises partway) — so pushes and pops are strictly paired; and while the
body runs it observes the pushed command and program name. -/
theorem claim_C6
    (walker : Str → PyVal → Bool → Option Str → TempData → Except RunErr (List RNode))
    (imp : ImportEnv) (argument : Str) (opts : ClickOpts) (td : TempData) :
    (ClickDirective_run walker imp argument opts td).2 = td ∧
    (∀ command prog_name,
      _load_module imp argument = .ok command → opts.prog = some prog_name →
      (ClickDirective_run walker imp argument opts td).1 =
        walker prog_name command opts.show_nested opts.commands
          (pushClickFrame command prog_name td) ∧
      tdGet (pushClickFrame command prog_name td) "click:command".data = some command ∧
      tdGet (pushClickFrame command prog_name td) "click:prog".data =
        some (.strV prog_name)) := by
  constructor
  · rw [ClickDirective_run]
    cases hload : _load_module imp argument with
    | error e => rfl
    | ok command =>
      cases hprog : opts.prog with
      | none => rfl
      | some prog_name => rfl
  · intro command prog_name hload hprog
    rw [ClickDirective_run, hload, hprog]
    refine ⟨rfl, ?_, ?_⟩
    · rw [pushClickFrame, tdGet]
      rfl
    · rw [pushClickFrame, tdGet]
      rfl

/-- Witness for C6: a concrete invocation whose walker body fails, with
the temp-data still restored and the pushed bindings visible to the
body. -/
theorem claim_C6_witness :
    (ClickDirective_run (fun _ _ _ _ _ => .error (.walkerFailed "boom".data))
      impEx "pkg.mod:thing".data
      ⟨some "cli".data, true, false, none⟩ [[("other".data, .other 1)]]).2 =
      [[("other".data, .other 1)]] ∧
    (ClickDirective_run (fun _ _ _ _ _ => .error (.walkerFailed "boom".data))
      impEx "pkg.mod:thing".data
      ⟨some "cli".data, true, false, none⟩ [[("other".data, .other 1)]]).1 =
      .error (.walkerFailed "boom".data) ∧
    tdGet (pushClickFrame (.other 7) "cli".data [[("other".data, .other 1)]])
      "click:command".data = some (.other 7) :=
  ⟨(claim_C6 _ impEx _ _ _).1,
   ((claim_C6 _ impEx "pkg.mod:thing".data ⟨some "cli".data, true, false, none⟩
      [[("other".data, .other 1)]]).2 (.other 7) "cli".data rfl rfl).1,
   ((claim_C6 (fun _ _ _ _ _ => .error (.walkerFailed "boom".data)) impEx
      "pkg.mod:thing".data ⟨some "cli".data, true, false, none⟩
      [[("other".data, .other 1)]]).2 (.other 7) "cli".data rfl rfl).2.1⟩

/-! ## Claim C7: options-only dispatcher context requirement -/

/-- C7: `ClickOptionsDirective.run` with no module-reference argument
reads the current command from the shared build state; when none is
present it fails with `MissingContext`, and it never renders from an
absent command. -/
theorem claim_C7 (imp : ImportEnv) (progOpt : Option Str) (td : TempData) :
    (tdGet td "click:command".data = none →
      ClickOptionsDirective_run imp [] progOpt td = .error .missingContext) ∧
    (∀ ns, ClickOptionsDirective_run imp [] progOpt td = .ok ns →
      ∃ c : Cmd, tdGet td "click:command".data = some (.cmd c)) := by
  constructor
  · intro habs
    rw [ClickOptionsDirective_run.eq_def, habs]
    rfl
  · intro ns h
    rw [ClickOptionsDirective_run.eq_def] at h
    cases hget : tdGet td "click:command".data with
    | none => rw [hget] at h; exact absurd h (by simp)
    | some v =>
      rw [hget] at h
      cases v with
      | cmd c => exact ⟨c, rfl⟩
      | strV s => exact absurd h (by simp)
      | pynone => exact absurd h (by simp)
      | other n => exact absurd h (by simp)

/-- Witness for C7: with an empty build state and no argument, the
options-only dispatcher fails with `MissingContext`. -/
theorem claim_C7_witness :
    ClickOptionsDirective_run impEx [] none [] = .error .missingContext :=
  (claim_C7 impEx none []).1 rfl

/-! ## Line structure of `splitlinesKeepends` (for claims C5, C8, C9) -/

/-- Strings containing no line-boundary characters. -/
def noNL (s : Str) : Prop := ∀ c ∈ s, c ≠ '\n' ∧ c ≠ '\r'

/-- The three modelled line terminators. -/
def IsTerm (t : Str) : Prop := t = ['\n'] ∨ t = ['\r'] ∨ t = ['\r', '\n']

/-- A terminated line chunk: a boundary-free body followed by one
terminator. -/
def Chunk (l : Str) : Prop := ∃ b t, l = b ++ t ∧ noNL b ∧ IsTerm t

/-- An unterminated final chunk. -/
def LastChunk (l : Str) : Prop := l ≠ [] ∧ noNL l

/-- Chunk lists in the image of `splitlinesKeepends`: every chunk but
possibly the last is terminated, and a chunk ending in a bare `\r` is
never followed by a chunk starting with `\n`. -/
inductive ValidChunks : List Str → Prop where
  | nil : ValidChunks []
  | lastC (l : Str) (h : LastChunk l) : ValidChunks [l]
  | consC (l : Str) (rest : List Str) (hc : Chunk l) (hv : ValidChunks rest)
      (hadj : l.getLast? = some '\r' → (rest.head?.getD []).head? ≠ some '\n') :
      ValidChunks (l :: rest)

theorem chunk_ne_nil {l : Str} (h : Chunk l) : l ≠ [] := by
  obtain ⟨b, t, rfl, _, ht⟩ := h
  rcases ht with rfl | rfl | rfl <;> simp

theorem validChunks_head_ne_nil {l : Str} {rest : List Str}
    (h : ValidChunks (l :: rest)) : l ≠ [] := by
  cases h with
  | lastC _ hl => exact hl.1
  | consC _ _ hc _ _ => exact chunk_ne_nil hc

theorem flatten_splitlines (s : Str) : (splitlinesKeepends s).flatten = s := by
  induction s using splitlinesKeepends.induct with
  | case1 => rfl
  | case2 rest ih => simp [splitlinesKeepends, ih]
  | case3 rest ih => simp [splitlinesKeepends, ih]
  | case4 rest h ih => simp [splitlinesKeepends, ih]
  | case5 c rest h1 h2 h3 hm ih =>
    have hc1 : c ≠ '\n' := fun h => h1 h
    have hc3 : c ≠ '\r' := fun h => h3 h
    rw [hm] at ih
    simp only [List.flatten_nil] at ih
    subst ih
    simp [splitlinesKeepends, hc1, hc3, hm]
  | case6 c rest h1 h2 h3 l ls hm ih =>
    have hc1 : c ≠ '\n' := fun h => h1 h
    have hc3 : c ≠ '\r' := fun h => h3 h
    rw [hm] at ih
    simp only [List.flatten_cons] at ih
    simp [splitlinesKeepends, hc1, hc3, hm, List.flatten_cons, ih]

theorem getLast?_cons_ne_nil {c : Char} {l : Str} (h : l ≠ []) :
    (c :: l).getLast? = l.getLast? := by
  cases l with
  | nil => exact absurd rfl h
  | cons d l' => exact List.getLast?_cons_cons

theorem split_noNL {l : Str} (h : noNL l) (hne : l ≠ []) :
    splitlinesKeepends l = [l] := by
  induction l with
  | nil => exact absurd rfl hne
  | cons c r ih =>
    have hc := h c (List.mem_cons_self c r)
    have hr : noNL r := fun x hx => h x (List.mem_cons_of_mem c hx)
    by_cases hre : r = []
    · subst hre
      simp [splitlinesKeepends, hc.1, hc.2]
    · have ihr := ih hr hre
      simp [splitlinesKeepends, hc.1, hc.2, ihr]

theorem split_append_chunk {b t r : Str} (hb : noNL b) (ht : IsTerm t)
    (hr : t = ['\r'] → r.head? ≠ some '\n') :
    splitlinesKeepends (b ++ (t ++ r)) = (b ++ t) :: splitlinesKeepends r := by
  induction b with
  | nil =>
    simp only [List.nil_append]
    rcases ht with rfl | rfl | rfl
    · rfl
    · have hr' := hr rfl
      cases r with
      | nil => rfl
      | cons d r' =>
        have hd : d ≠ '\n' := by
          intro h
          rw [h] at hr'
          simp at hr'
        simp [splitlinesKeepends, hd]
    · rfl
  | cons c b' ih =>
    have hc := hb c (List.mem_cons_self c b')
    have hb' : noNL b' := fun x hx => hb x (List.mem_cons_of_mem c hx)
    have ihb := ih hb'
    have htne : (t : Str) ≠ [] := by
      rcases ht with rfl | rfl | rfl <;> simp
    simp only [List.cons_append]
    simp [splitlinesKeepends, hc.1, hc.2, ihb]

theorem head_splitlines (s : Str) :
    ((splitlinesKeepends s).head?.getD []).head? = s.head? := by
  induction s using splitlinesKeepends.induct with
  | case1 => rfl
  | case2 rest ih => rfl
  | case3 rest ih => rfl
  | case4 rest h ih =>
    cases rest with
    | nil => rfl
    | cons d r' =>
      have hd : d ≠ '\n' := fun hh => h r' (by rw [hh])
      simp [splitlinesKeepends, hd]
  | case5 c rest h1 h2 h3 hm ih =>
    have hc1 : c ≠ '\n' := fun h => h1 h
    have hc3 : c ≠ '\r' := fun h => h3 h
    simp [splitlinesKeepends, hc1, hc3, hm]
  | case6 c rest h1 h2 h3 l ls hm ih =>
    have hc1 : c ≠ '\n' := fun h => h1 h
    have hc3 : c ≠ '\r' := fun h => h3 h
    simp [splitlinesKeepends, hc1, hc3, hm]

theorem splitlines_flatten_of_validChunks {cs : List Str} (h : ValidChunks cs) :
    splitlinesKeepends cs.flatten = cs := by
  induction h with
  | nil => rfl
  | lastC l hl =>
    simp only [List.flatten_cons, List.flatten_nil, List.append_nil]
    exact split_noNL hl.2 hl.1
  | consC l rest hc hv hadj ih =>
    obtain ⟨b, t, rfl, hb, ht⟩ := hc
    have hr : t = ['\r'] → (rest.flatten).head? ≠ some '\n' := by
      intro htr
      subst htr
      have hlast : (b ++ ['\r']).getLast? = some '\r' := by simp
      have hne := hadj hlast
      cases rest with
      | nil => simp
      | cons r0 rest' =>
        have hr0 : r0 ≠ [] := validChunks_head_ne_nil hv
        cases r0 with
        | nil => exact absurd rfl hr0
        | cons d r0' =>
          simp only [List.flatten_cons, List.cons_append, List.head?_cons]
          simpa using hne
    calc splitlinesKeepends ((b ++ t) :: rest).flatten
        = splitlinesKeepends (b ++ (t ++ rest.flatten)) := by
          simp [List.flatten_cons, List.append_assoc]
      _ = (b ++ t) :: splitlinesKeepends rest.flatten :=
          split_append_chunk hb ht hr
      _ = (b ++ t) :: rest := by rw [ih]

theorem validChunks_splitlines (s : Str) : ValidChunks (splitlinesKeepends s) := by
  induction s using splitlinesKeepends.induct with
  | case1 => exact .nil
  | case2 rest ih =>
    refine .consC _ _ ⟨[], ['\n'], rfl, fun x hx => by simp at hx, Or.inl rfl⟩ ih ?_
    intro h
    simp at h
  | case3 rest ih =>
    refine .consC _ _
      ⟨[], ['\r', '\n'], rfl, fun x hx => by simp at hx, Or.inr (Or.inr rfl)⟩ ih ?_
    intro h
    simp at h
  | case4 rest h ih =>
    cases rest with
    | nil =>
      refine .consC _ _
        ⟨[], ['\r'], rfl, fun x hx => by simp at hx, Or.inr (Or.inl rfl)⟩ .nil ?_
      intro _
      simp [splitlinesKeepends]
    | cons d r' =>
      have hd : d ≠ '\n' := fun hh => h r' (by rw [hh])
      rw [show splitlinesKeepends ('\r' :: d :: r') =
          ['\r'] :: splitlinesKeepends (d :: r') from by
        simp [splitlinesKeepends, hd]]
      refine .consC _ _
        ⟨[], ['\r'], rfl, fun x hx => by simp at hx, Or.inr (Or.inl rfl)⟩ ih ?_
      intro _
      rw [head_splitlines]
      simpa using hd
  | case5 c rest h1 h2 h3 hm ih =>
    have hc1 : c ≠ '\n' := fun h => h1 h
    have hc3 : c ≠ '\r' := fun h => h3 h
    rw [show splitlinesKeepends (c :: rest) = [[c]] from by
      simp [splitlinesKeepends, hc1, hc3, hm]]
    refine .lastC _ ⟨by simp, fun x hx => ?_⟩
    simp only [List.mem_singleton] at hx
    subst hx
    exact ⟨hc1, hc3⟩
  | case6 c rest h1 h2 h3 l ls hm ih =>
    have hc1 : c ≠ '\n' := fun h => h1 h
    have hc3 : c ≠ '\r' := fun h => h3 h
    rw [show splitlinesKeepends (c :: rest) = (c :: l) :: ls from by
      simp [splitlinesKeepends, hc1, hc3, hm]]
    rw [hm] at ih
    cases ih with
    | lastC _ hl =>
      refine .lastC _ ⟨by simp, fun x hx => ?_⟩
      rcases List.mem_cons.mp hx with rfl | hx'
      · exact ⟨hc1, hc3⟩
      · exact hl.2 x hx'
    | consC _ _ hcC hvC hadjC =>
      have hlne : l ≠ [] := chunk_ne_nil hcC
      refine .consC _ _ ?_ hvC ?_
      · obtain ⟨b, t, heq, hb, ht⟩ := hcC
        refine ⟨c :: b, t, by rw [heq, List.cons_append], fun x hx => ?_, ht⟩
        rcases List.mem_cons.mp hx with rfl | hx'
        · exact ⟨hc1, hc3⟩
        · exact hb x hx'
      · intro hlast
        rw [getLast?_cons_ne_nil hlne] at hlast
        exact hadjC hlast

theorem validChunks_map_indent {cs : List Str} (pref : Str)
    (hpre : ∀ c ∈ pref, c = ' ') (h : ValidChunks cs) :
    ValidChunks (cs.map (fun line => if pyStrip line = [] then line else pref ++ line)) := by
  have hprenl : ∀ c ∈ pref, c ≠ '\n' ∧ c ≠ '\r' := by
    intro c hc
    rw [hpre c hc]
    exact ⟨by decide, by decide⟩
  induction h with
  | nil => exact .nil
  | lastC l hl =>
    by_cases hb : pyStrip l = []
    · simpa [hb] using ValidChunks.lastC l hl
    · simp only [List.map_cons, List.map_nil, if_neg hb]
      refine .lastC _ ⟨by simp [hl.1], fun x hx => ?_⟩
      rcases List.mem_append.mp hx with hx' | hx'
      · exact hprenl x hx'
      · exact hl.2 x hx'
  | consC l rest hc hv hadj ih =>
    simp only [List.map_cons]
    refine .consC _ _ ?_ ih ?_
    · by_cases hb : pyStrip l = []
      · simpa [hb] using hc
      · obtain ⟨b, t, rfl, hbody, ht⟩ := hc
        refine ⟨pref ++ b, t, by simp [hb, List.append_assoc], fun x hx => ?_, ht⟩
        rcases List.mem_append.mp hx with hx' | hx'
        · exact hprenl x hx'
        · exact hbody x hx'
    · intro hlast
      have hlg : l.getLast? = some '\r' := by
        by_cases hb : pyStrip l = []
        · simpa [hb] using hlast
        · rw [if_neg hb] at hlast
          rwa [List.getLast?_append_of_ne_nil pref (chunk_ne_nil hc)] at hlast
      have hne := hadj hlg
      cases rest with
      | nil => simp
      | cons r0 rest' =>
        simp only [List.map_cons, List.head?_cons, Option.getD_some] at hne ⊢
        by_cases hb0 : pyStrip r0 = []
        · simpa [hb0] using hne
        · rw [if_neg hb0]
          cases hp : pref with
          | nil => simpa [hp] using hne
          | cons p0 pref' =>
            have : p0 = ' ' := hpre p0 (by rw [hp]; exact List.mem_cons_self _ _)
            simp [this]

/-- Line decomposition of `_indent`: indentation maps each line of the
input through the blank-line-preserving prefixer, line for line. -/
theorem splitlines_indent (text : Str) (level : Nat) :
    splitlinesKeepends (_indent text level) =
      (splitlinesKeepends text).map
        (fun line => if pyStrip line = [] then line
          else List.replicate (4 * level) ' ' ++ line) := by
  have h := validChunks_map_indent
    (List.replicate (4 * level) ' ')
    (fun c hc => List.eq_of_mem_replicate hc) (validChunks_splitlines text)
  exact splitlines_flatten_of_validChunks h

theorem pyStrip_eq_nil_iff {l : Str} : pyStrip l = [] ↔ ∀ c ∈ l, isPySpace c := by
  unfold pyStrip
  constructor
  · intro h c hc
    rw [List.reverse_eq_nil_iff, List.dropWhile_eq_nil_iff] at h
    have hsplit := List.takeWhile_append_dropWhile (p := isPySpace) (l := l)
    rcases List.mem_append.mp (by rw [hsplit]; exact hc) with h1 | h2
    · exact List.mem_takeWhile_imp h1
    · exact h c (List.mem_reverse.mpr h2)
  · intro h
    have h1 : l.dropWhile isPySpace = [] :=
      List.dropWhile_eq_nil_iff.mpr (fun x hx => h x hx)
    simp [h1]

/-- C8: the indentation rule.  For levels 1 and 2, the lines of
`_indent text level` are exactly the lines of `text`, with every
non-blank line gaining exactly `4*level` leading spaces and every blank
line left untouched. -/
theorem claim_C8 (text : Str) :
    (splitlinesKeepends (_indent text 1) =
      (splitlinesKeepends text).map
        (fun line => if pyStrip line = [] then line else "    ".data ++ line)) ∧
    (splitlinesKeepends (_indent text 2) =
      (splitlinesKeepends text).map
        (fun line => if pyStrip line = [] then line
          else "        ".data ++ line)) := by
  constructor
  · rw [splitlines_indent]
    simp only [show List.replicate (4 * 1) ' ' = "    ".data from by decide]
  · rw [splitlines_indent]
    simp only [show List.replicate (4 * 2) ' ' = "        ".data from by decide]

/-- C9: `_indent` treats whitespace-only lines like empty ones (no
prefix), preserves the number of lines, and rewrites each non-blank line
to exactly the space prefix followed by the original line (so every
line's trailing newline is unchanged). -/
theorem claim_C9 (text : Str) (level : Nat) :
    ((splitlinesKeepends (_indent text level)).length =
      (splitlinesKeepends text).length) ∧
    (∀ i : Nat, ((splitlinesKeepends text).getD i []).all isPySpace = true →
      (splitlinesKeepends (_indent text level)).getD i [] =
        (splitlinesKeepends text).getD i []) ∧
    (∀ i : Nat, ((splitlinesKeepends text).getD i []).all isPySpace = false →
      (splitlinesKeepends (_indent text level)).getD i [] =
        List.replicate (4 * level) ' ' ++ (splitlinesKeepends text).getD i []) := by
  have hmap := splitlines_indent text level
  refine ⟨by rw [hmap]; simp, fun i h => ?_, fun i h => ?_⟩
  · rw [hmap]
    cases hlt : (splitlinesKeepends text)[i]? with
    | none => simp [List.getD_eq_getElem?_getD, List.getElem?_map, hlt]
    | some l =>
      have hl : (splitlinesKeepends text).getD i [] = l := by
        simp [List.getD_eq_getElem?_getD, hlt]
      rw [hl] at h
      have hstrip : pyStrip l = [] :=
        pyStrip_eq_nil_iff.mpr (by simpa [List.all_eq_true] using h)
      simp [List.getD_eq_getElem?_getD, List.getElem?_map, hlt, hstrip, hl]
  · rw [hmap]
    cases hlt : (splitlinesKeepends text)[i]? with
    | none =>
      have hnil : (splitlinesKeepends text).getD i [] = [] := by
        simp [List.getD_eq_getElem?_getD, hlt]
      rw [hnil] at h
      simp at h
    | some l =>
      have hl : (splitlinesKeepends text).getD i [] = l := by
        simp [List.getD_eq_getElem?_getD, hlt]
      rw [hl] at h
      have hstrip : pyStrip l ≠ [] := by
        intro hs
        rw [show l.all isPySpace = true from
          List.all_eq_true.mpr (fun x hx => pyStrip_eq_nil_iff.mp hs x hx)] at h
        exact Bool.noConfusion h
      simp [List.getD_eq_getElem?_getD, List.getElem?_map, hlt, hstrip, hl]

/-- Witness for C9 at a concrete block: a whitespace-only line keeps no
prefix while its neighbours gain one. -/
theorem claim_C9_witness :
    ((splitlinesKeepends "ab\n \t\ncd".data).getD 1 []).all isPySpace = true ∧
    (splitlinesKeepends (_indent "ab\n \t\ncd".data 1)).getD 1 [] =
      (splitlinesKeepends "ab\n \t\ncd".data).getD 1 [] ∧
    ((splitlinesKeepends "ab\n \t\ncd".data).getD 0 []).all isPySpace = false ∧
    (splitlinesKeepends (_indent "ab\n \t\ncd".data 1)).getD 0 [] =
      List.replicate (4 * 1) ' ' ++ (splitlinesKeepends "ab\n \t\ncd".data).getD 0 [] :=
  ⟨by decide,
   (claim_C9 "ab\n \t\ncd".data 1).2.1 1 (by decide),
   by decide,
   (claim_C9 "ab\n \t\ncd".data 1).2.2 0 (by decide)⟩

/-! ## Claim C5: section heading suppression -/

/-- Indented output never equals a heading-shaped line: a non-blank,
boundary-free string that does not start with a space. -/
theorem indent_ne {H : Str} (hH1 : pyStrip H ≠ []) (hH2 : noNL H)
    (hH3 : H.head? ≠ some ' ') (l : Str) (lv : Nat) (hlv : 0 < lv) :
    _indent l lv ≠ H := by
  intro he
  simp only [_indent] at he
  have hv := validChunks_splitlines l
  rcases hcs : splitlinesKeepends l with _ | ⟨a, rest⟩
  · rw [hcs] at he
    simp at he
    exact hH1 (by rw [he]; rfl)
  · rcases rest with _ | ⟨b, rest'⟩
    · rw [hcs] at he
      simp only [List.map_cons, List.map_nil, List.flatten_cons, List.flatten_nil,
        List.append_nil] at he
      by_cases hb : pyStrip a = []
      · rw [if_pos hb] at he
        rw [← he] at hH1
        exact hH1 hb
      · rw [if_neg hb] at he
        obtain ⟨k, hk⟩ := Nat.exists_eq_succ_of_ne_zero
          (show 4 * lv ≠ 0 by omega)
        rw [hk] at he
        exact hH3 (by rw [← he]; rfl)
    · rw [hcs] at hv
      have hchunk : Chunk a := by
        cases hv with
        | consC _ _ hc _ _ => exact hc
      have hmem : '\n' ∈ a ∨ '\r' ∈ a := by
        obtain ⟨body, t, rfl, hb, ht⟩ := hchunk
        rcases ht with rfl | rfl | rfl
        · exact Or.inl (List.mem_append_right _ (List.mem_singleton.mpr rfl))
        · exact Or.inr (List.mem_append_right _ (List.mem_singleton.mpr rfl))
        · exact Or.inr (List.mem_append_right _ (List.mem_cons_self _ _))
      rw [hcs] at he
      simp only [List.map_cons, List.flatten_cons] at he
      rcases hmem with hm | hm
      · have hin : '\n' ∈ H := by
          rw [← he]
          apply List.mem_append_left
          by_cases hb : pyStrip a = [] <;> simp [hb, hm]
        exact (hH2 _ hin).1 rfl
      · have hin : '\r' ∈ H := by
          rw [← he]
          apply List.mem_append_left
          by_cases hb : pyStrip a = [] <;> simp [hb, hm]
        exact (hH2 _ hin).2 rfl

/-- Shape of every line of an options block. -/
theorem shape_format_options {ctx : Ctx} {x : Str} (hx : x ∈ _format_options ctx) :
    x = [] ∨ (∃ s, x = ".. option:: ".data ++ s) ∨ (∃ s, x = _indent s 1) := by
  unfold _format_options at hx
  simp only [List.mem_flatten, List.mem_map] at hx
  obtain ⟨block, ⟨p, _, rfl⟩, hxb⟩ := hx
  rcases List.mem_append.mp hxb with hxb | hxb
  · unfold _format_option at hxb
    rcases List.mem_append.mp hxb with hxb | hxb
    · simp only [List.mem_singleton] at hxb
      exact Or.inr (Or.inl ⟨_, hxb⟩)
    · by_cases hh : (_get_help_record p).2 ≠ []
      · rw [if_pos hh] at hxb
        rcases List.mem_append.mp hxb with hxb | hxb
        · simp only [List.mem_singleton] at hxb
          exact Or.inl hxb
        · obtain ⟨s, _, rfl⟩ := List.mem_map.mp hxb
          exact Or.inr (Or.inr ⟨s, rfl⟩)
      · rw [if_neg hh] at hxb
        simp at hxb
  · simp only [List.mem_singleton] at hxb
    exact Or.inl hxb

/-- Shape of every line of an arguments block. -/
theorem shape_format_arguments {ctx : Ctx} {x : Str}
    (hx : x ∈ _format_arguments ctx) :
    x = [] ∨ (∃ s, x = ".. option:: ".data ++ s) ∨ (∃ s, x = _indent s 1) := by
  unfold _format_arguments at hx
  simp only [List.mem_flatten, List.mem_map] at hx
  obtain ⟨block, ⟨p, _, rfl⟩, hxb⟩ := hx
  rcases List.mem_append.mp hxb with hxb | hxb
  · unfold _format_argument at hxb
    simp only [List.mem_cons, List.mem_singleton, List.not_mem_nil, or_false] at hxb
    rcases hxb with rfl | rfl | rfl
    · exact Or.inr (Or.inl ⟨_, rfl⟩)
    · exact Or.inl rfl
    · exact Or.inr (Or.inr ⟨_, rfl⟩)
  · simp only [List.mem_singleton] at hxb
    exact Or.inl hxb

/-- Shape of every line of an environment-variables block. -/
theorem shape_format_envvars {ctx : Ctx} {x : Str}
    (hx : x ∈ _format_envvars ctx) :
    x = [] ∨ (∃ s, x = ".. envvar:: ".data ++ s) ∨ (∃ s, x = _indent s 1) := by
  unfold _format_envvars at hx
  simp only [List.mem_flatten, List.mem_map] at hx
  obtain ⟨block, ⟨p, _, rfl⟩, hxb⟩ := hx
  rcases List.mem_append.mp hxb with hxb | hxb
  · unfold _format_envvar at hxb
    simp only [List.mem_cons, List.mem_singleton, List.not_mem_nil, or_false] at hxb
    rcases hxb with rfl | rfl | rfl
    · exact Or.inr (Or.inl ⟨_, rfl⟩)
    · exact Or.inl rfl
    · exact Or.inr (Or.inr ⟨_, rfl⟩)
  · simp only [List.mem_singleton] at hxb
    exact Or.inl hxb

/-- Shape of every line of a subcommand block. -/
theorem shape_format_subcommand {c : Cmd} {x : Str}
    (hx : x ∈ _format_subcommand c) :
    x = [] ∨ (∃ s, x = ".. object:: ".data ++ s) ∨ (∃ s, x = _indent s 1) := by
  unfold _format_subcommand at hx
  rcases List.mem_append.mp hx with hxb | hxb
  · simp only [List.mem_singleton] at hxb
    exact Or.inr (Or.inl ⟨_, hxb⟩)
  · rcases hsh : c.short_help with _ | sh
    · rw [hsh] at hxb
      simp at hxb
    · rw [hsh] at hxb
      by_cases hne : sh = []
      · simp only [if_pos hne] at hxb
        simp at hxb
      · simp only [if_neg hne] at hxb
        rcases List.mem_append.mp hxb with hxb | hxb
        · simp only [List.mem_singleton] at hxb
          exact Or.inl hxb
        · obtain ⟨s, _, rfl⟩ := List.mem_map.mp hxb
          exact Or.inr (Or.inr ⟨s, rfl⟩)

theorem ne_append_of_head {c : Char} {p x H : Str} (hp : p.head? = some c)
    (hH : H.head? ≠ some c) : H ≠ p ++ x := by
  intro he
  apply hH
  rw [he]
  cases p with
  | nil => simp at hp
  | cons d p' => simpa using hp

theorem flatten_map_eq_nil_iff {α : Type} (f : α → List Str) (hf : ∀ a, f a ≠ []) :
    ∀ ps : List α, ((ps.map f).flatten = [] ↔ ps = [])
  | [] => by simp
  | p :: ps => by
    simp only [List.map_cons, List.flatten_cons]
    constructor
    · intro h
      exact absurd (List.append_eq_nil.mp h).1 (hf p)
    · intro h
      simp at h

theorem format_options_eq_nil_iff (ctx : Ctx) :
    _format_options ctx = [] ↔
      ctx.command.params.filter
        (fun x => x.kind = ParamKind.option && !x.hidden) = [] := by
  unfold _format_options
  exact flatten_map_eq_nil_iff _ (fun p => by simp) _

theorem format_arguments_eq_nil_iff (ctx : Ctx) :
    _format_arguments ctx = [] ↔
      ctx.command.params.filter (fun x => x.kind = ParamKind.argument) = [] := by
  unfold _format_arguments
  exact flatten_map_eq_nil_iff _ (fun p => by simp) _

theorem format_envvars_eq_nil_iff (ctx : Ctx) :
    _format_envvars ctx = [] ↔
      ctx.command.params.filter envvarTruthy = [] := by
  unfold _format_envvars
  exact flatten_map_eq_nil_iff _ (fun p => by simp) _

/-- Heading-shaped members of the Command Renderer's output can only be
usage lines, description lines, or one of the section headings of a
non-empty section. -/
theorem heading_mem_format_command {ctx : Ctx} {sn : Bool} {cs : Option Str}
    {H : Str} (hdot : H.head? ≠ some '.') (hnil : H ≠ []) (hsp : pyStrip H ≠ [])
    (hnl : noNL H) (hsp2 : H.head? ≠ some ' ')
    (hmem : H ∈ _format_command ctx sn cs) :
    H ∈ _format_usage ctx ∨ H ∈ _format_description ctx ∨
    (H ∈ ["Synopsis".data, "--------".data, "Description".data,
          "-----------".data, "Commands".data]) ∨
    ((H = "Options".data ∨ H = "-------".data) ∧ _format_options ctx ≠ []) ∨
    ((H = "Arguments".data ∨ H = "---------".data) ∧
      _format_arguments ctx ≠ []) ∨
    ((H = "Environment variables".data ∨ H = "---------------------".data) ∧
      _format_envvars ctx ≠ []) := by
  have hind : ∀ s, _indent s 1 ≠ H := fun s => indent_ne hsp hnl hsp2 s 1 (by omega)
  have hkill : ∀ {x : Str},
      (x = [] ∨ (∃ s, x = ".. option:: ".data ++ s) ∨ (∃ s, x = _indent s 1)) →
      H ≠ x := by
    rintro x (rfl | ⟨s, rfl⟩ | ⟨s, rfl⟩)
    · exact hnil
    · exact ne_append_of_head rfl hdot
    · exact fun he => hind s he.symm
  have hkillE : ∀ {x : Str},
      (x = [] ∨ (∃ s, x = ".. envvar:: ".data ++ s) ∨ (∃ s, x = _indent s 1)) →
      H ≠ x := by
    rintro x (rfl | ⟨s, rfl⟩ | ⟨s, rfl⟩)
    · exact hnil
    · exact ne_append_of_head rfl hdot
    · exact fun he => hind s he.symm
  have hkillO : ∀ {x : Str},
      (x = [] ∨ (∃ s, x = ".. object:: ".data ++ s) ∨ (∃ s, x = _indent s 1)) →
      H ≠ x := by
    rintro x (rfl | ⟨s, rfl⟩ | ⟨s, rfl⟩)
    · exact hnil
    · exact ne_append_of_head rfl hdot
    · exact fun he => hind s he.symm
  simp only [_format_command] at hmem
  rcases List.mem_append.mp hmem with h | hcmdseg
  rcases List.mem_append.mp h with h | henvseg
  rcases List.mem_append.mp h with h | hargseg
  rcases List.mem_append.mp h with h | hoptseg
  rcases List.mem_append.mp h with h | hdesc
  rcases List.mem_append.mp h with h | hdtrip
  rcases List.mem_append.mp h with h | husage
  rcases List.mem_append.mp h with hprog | hstrip
  · -- program line block
    rcases List.mem_cons.mp hprog with he | he
    · exact absurd he (ne_append_of_head rfl hdot)
    · simp only [List.mem_singleton] at he
      exact absurd he hnil
  · -- Synopsis triple
    rcases List.mem_cons.mp hstrip with he | he
    · exact Or.inr (Or.inr (Or.inl (by rw [he]; simp)))
    rcases List.mem_cons.mp he with he | he
    · exact Or.inr (Or.inr (Or.inl (by rw [he]; simp)))
    · simp only [List.mem_singleton] at he
      exact absurd he hnil
  · exact Or.inl husage
  · -- Description triple
    rcases List.mem_cons.mp hdtrip with he | he
    · exact Or.inr (Or.inr (Or.inl (by rw [he]; simp)))
    rcases List.mem_cons.mp he with he | he
    · exact Or.inr (Or.inr (Or.inl (by rw [he]; simp)))
    · simp only [List.mem_singleton] at he
      exact absurd he hnil
  · exact Or.inr (Or.inl hdesc)
  · -- Options segment
    rcases List.mem_append.mp hoptseg with h | hlines
    · by_cases hne : _format_options ctx ≠ []
      · rw [if_pos hne] at h
        rcases List.mem_cons.mp h with he | he
        · exact Or.inr (Or.inr (Or.inr (Or.inl ⟨Or.inl he, hne⟩)))
        rcases List.mem_cons.mp he with he | he
        · exact Or.inr (Or.inr (Or.inr (Or.inl ⟨Or.inr he, hne⟩)))
        · simp only [List.mem_singleton] at he
          exact absurd he hnil
      · rw [if_neg hne] at h
        simp at h
    · exact absurd rfl (hkill (shape_format_options hlines))
  · -- Arguments segment
    rcases List.mem_append.mp hargseg with h | hlines
    · by_cases hne : _format_arguments ctx ≠ []
      · rw [if_pos hne] at h
        rcases List.mem_cons.mp h with he | he
        · exact Or.inr (Or.inr (Or.inr (Or.inr (Or.inl ⟨Or.inl he, hne⟩))))
        rcases List.mem_cons.mp he with he | he
        · exact Or.inr (Or.inr (Or.inr (Or.inr (Or.inl ⟨Or.inr he, hne⟩))))
        · simp only [List.mem_singleton] at he
          exact absurd he hnil
      · rw [if_neg hne] at h
        simp at h
    · exact absurd rfl (hkill (shape_format_arguments hlines))
  · -- Environment variables segment
    rcases List.mem_append.mp henvseg with h | hlines
    · by_cases hne : _format_envvars ctx ≠ []
      · rw [if_pos hne] at h
        rcases List.mem_cons.mp h with he | he
        · exact Or.inr (Or.inr (Or.inr (Or.inr (Or.inr ⟨Or.inl he, hne⟩))))
        rcases List.mem_cons.mp he with he | he
        · exact Or.inr (Or.inr (Or.inr (Or.inr (Or.inr ⟨Or.inr he, hne⟩))))
        · simp only [List.mem_singleton] at he
          exact absurd he hnil
      · rw [if_neg hne] at h
        simp at h
    · exact absurd rfl (hkillE (shape_format_envvars hlines))
  · -- Commands segment
    cases sn with
    | true => simp at hcmdseg
    | false =>
      simp only [Bool.false_eq_true, if_false] at hcmdseg
      rcases List.mem_append.mp hcmdseg with h | hblocks
      · by_cases hne : (_filter_commands ctx cs).isEmpty
        · rw [if_pos hne] at h
          simp at h
        · rw [if_neg hne] at h
          rcases List.mem_cons.mp h with he | he
          · exact Or.inr (Or.inr (Or.inl (by rw [he]; simp)))
          rcases List.mem_cons.mp he with he | he
          · exact Or.inr (Or.inr (Or.inl (by rw [he]; simp)))
          · simp only [List.mem_singleton] at he
            exact absurd he hnil
      · simp only [List.mem_flatten, List.mem_map] at hblocks
        obtain ⟨block, ⟨c, _, rfl⟩, hxb⟩ := hblocks
        rcases List.mem_append.mp hxb with hxb | hxb
        · exact absurd rfl (hkillO (shape_format_subcommand hxb))
        · simp only [List.mem_singleton] at hxb
          exact absurd hxb hnil

/-- C5: section heading suppression in the Command Renderer.  Provided
the free-form usage and description lines do not themselves spell a
heading, the "Options" heading appears in `_format_command`'s output
exactly when a non-hidden option exists, "Arguments" exactly when an
argument exists, and "Environment variables" exactly when a parameter
declares an environment variable. -/
theorem claim_C5 (ctx : Ctx) (show_nested : Bool) (commands : Option Str)
    (hguard : ∀ H : Str,
      H = "Options".data ∨ H = "Arguments".data ∨
        H = "Environment variables".data →
      H ∉ _format_usage ctx ∧ H ∉ _format_description ctx) :
    ("Options".data ∈ _format_command ctx show_nested commands ↔
      ctx.command.params.filter
        (fun x => x.kind = ParamKind.option && !x.hidden) ≠ []) ∧
    ("Arguments".data ∈ _format_command ctx show_nested commands ↔
      ctx.command.params.filter (fun x => x.kind = ParamKind.argument) ≠ []) ∧
    ("Environment variables".data ∈ _format_command ctx show_nested commands ↔
      ctx.command.params.filter envvarTruthy ≠ []) := by
  refine ⟨⟨fun hmem => ?_, fun hitems => ?_⟩,
          ⟨fun hmem => ?_, fun hitems => ?_⟩,
          ⟨fun hmem => ?_, fun hitems => ?_⟩⟩
  · rcases heading_mem_format_command (by decide) (by decide) (by decide)
      (by unfold noNL; decide) (by decide) hmem with h | h | h | ⟨_, hne⟩ | ⟨h, _⟩ | ⟨h, _⟩
    · exact absurd h (hguard _ (Or.inl rfl)).1
    · exact absurd h (hguard _ (Or.inl rfl)).2
    · exact absurd h (by decide)
    · exact fun hit => hne ((format_options_eq_nil_iff ctx).mpr hit)
    · exact absurd h (by decide)
    · exact absurd h (by decide)
  · have hlines : _format_options ctx ≠ [] :=
      fun h => hitems ((format_options_eq_nil_iff ctx).mp h)
    simp only [_format_command]
    apply List.mem_append_left
    apply List.mem_append_left
    apply List.mem_append_left
    apply List.mem_append_right
    apply List.mem_append_left
    rw [if_pos hlines]
    simp
  · rcases heading_mem_format_command (by decide) (by decide) (by decide)
      (by unfold noNL; decide) (by decide) hmem with h | h | h | ⟨h, _⟩ | ⟨_, hne⟩ | ⟨h, _⟩
    · exact absurd h (hguard _ (Or.inr (Or.inl rfl))).1
    · exact absurd h (hguard _ (Or.inr (Or.inl rfl))).2
    · exact absurd h (by decide)
    · exact absurd h (by decide)
    · exact fun hit => hne ((format_arguments_eq_nil_iff ctx).mpr hit)
    · exact absurd h (by decide)
  · have hlines : _format_arguments ctx ≠ [] :=
      fun h => hitems ((format_arguments_eq_nil_iff ctx).mp h)
    simp only [_format_command]
    apply List.mem_append_left
    apply List.mem_append_left
    apply List.mem_append_right
    apply List.mem_append_left
    rw [if_pos hlines]
    simp
  · rcases heading_mem_format_command (by decide) (by decide) (by decide)
      (by unfold noNL; decide) (by decide) hmem with h | h | h | ⟨h, _⟩ | ⟨h, _⟩ | ⟨_, hne⟩
    · exact absurd h (hguard _ (Or.inr (Or.inr rfl))).1
    · exact absurd h (hguard _ (Or.inr (Or.inr rfl))).2
    · exact absurd h (by decide)
    · exact absurd h (by decide)
    · exact absurd h (by decide)
    · exact fun hit => hne ((format_envvars_eq_nil_iff ctx).mpr hit)
  · have hlines : _format_envvars ctx ≠ [] :=
      fun h => hitems ((format_envvars_eq_nil_iff ctx).mp h)
    simp only [_format_command]
    apply List.mem_append_left
    apply List.mem_append_right
    apply List.mem_append_left
    rw [if_pos hlines]
    simp

/-- Example context for the C5 witness: one non-hidden option, no
arguments, no environment variables, no help text. -/
def wCtxC5 : Ctx :=
  ⟨Cmd.mk "cli".data [optDefault12] [] none none ["[OPTIONS]".data],
   ["cli".data]⟩

/-- Witness for C5 at a concrete command with one option and nothing
else. -/
theorem claim_C5_witness :
    ("Options".data ∈ _format_command wCtxC5 false none ↔
      wCtxC5.command.params.filter
        (fun x => x.kind = ParamKind.option && !x.hidden) ≠ []) ∧
    ("Arguments".data ∈ _format_command wCtxC5 false none ↔
      wCtxC5.command.params.filter (fun x => x.kind = ParamKind.argument) ≠ []) ∧
    ("Environment variables".data ∈ _format_command wCtxC5 false none ↔
      wCtxC5.command.params.filter envvarTruthy ≠ []) :=
  claim_C5 wCtxC5 false none
    (by intro H h; rcases h with rfl | rfl | rfl <;> exact ⟨by decide, by decide⟩)

/-! ## Claim C1: the Tree Walker and the subcommand filter -/

/-- Specification-side Tree Walker stated by claim C1 (spec §4.3 step 3):
re-resolve the subcommand selection "using the original filter argument
at every level" and recurse, i.e. the explicit `commands` filter is
passed unchanged into every recursive call.  Defined for comparison with
the source's `ClickDirective_generate_nodes`. -/
def generateNodesSpecC1 (name : Str) (command : Cmd) (parent : Option Ctx)
    (commands : Option Str := none) : List RNode :=
  let ctx := _get_context name command parent
  RNode.parsed (_format_command ctx true commands) ::
  ((_filter_commands ctx commands).attach.map
    (fun c => generateNodesSpecC1 c.1.name c.1 (some ctx) commands)).flatten
termination_by sizeOf command
decreasing_by
  exact sizeOf_lt_of_mem_commands (mem_filter_commands c.2)

/-- Whole-tree walker with no filter at any level: render the command,
then recurse into all of its subcommands (sorted by name).  Used to
state the amended claim C1. -/
def walkAllSubcommands (name : Str) (command : Cmd) (parent : Option Ctx) :
    List RNode :=
  let ctx := _get_context name command parent
  RNode.parsed (_format_command ctx true none) ::
  ((_filter_commands ctx none).attach.map
    (fun c => walkAllSubcommands c.1.name c.1 (some ctx))).flatten
termination_by sizeOf command
decreasing_by
  exact sizeOf_lt_of_mem_commands (mem_filter_commands c.2)

/-- Amended claim C1's walker: the explicit filter selects the
subcommands at the top level only; every subtree below is rendered with
no filter (all subcommands, sorted by name). -/
def generateNodesTopOnly (name : Str) (command : Cmd) (parent : Option Ctx)
    (commands : Option Str) : List RNode :=
  let ctx := _get_context name command parent
  RNode.parsed (_format_command ctx true commands) ::
  ((_filter_commands ctx commands).map
    (fun c => walkAllSubcommands c.name c (some ctx))).flatten

/-- One-step unfolding of the Tree Walker without the `attach`
plumbing. -/
theorem generate_nodes_eq (name : Str) (command : Cmd) (parent : Option Ctx)
    (sn : Bool) (cs : Option Str) :
    ClickDirective_generate_nodes name command parent sn cs =
      RNode.parsed (_format_command (_get_context name command parent) sn cs) ::
      (if sn then
        ((_filter_commands (_get_context name command parent) cs).map
          (fun c => ClickDirective_generate_nodes c.name c
            (some (_get_context name command parent)) sn)).flatten
       else []) := by
  rw [ClickDirective_generate_nodes]
  cases sn with
  | false => rfl
  | true =>
    simp only [if_pos]
    congr 1
    congr 1
    exact List.attach_map_val _
      (fun c => ClickDirective_generate_nodes c.name c
        (some (_get_context name command parent)) true)

/-- One-step unfolding of the unfiltered walker. -/
theorem walkAll_eq (name : Str) (command : Cmd) (parent : Option Ctx) :
    walkAllSubcommands name command parent =
      RNode.parsed (_format_command (_get_context name command parent) true none) ::
      ((_filter_commands (_get_context name command parent) none).map
        (fun c => walkAllSubcommands c.name c
          (some (_get_context name command parent)))).flatten := by
  rw [walkAllSubcommands]
  congr 1
  congr 1
  exact List.attach_map_val _
    (fun c => walkAllSubcommands c.name c (some (_get_context name command parent)))

/-- One-step unfolding of the spec-side walker. -/
theorem generateNodesSpecC1_eq (name : Str) (command : Cmd) (parent : Option Ctx)
    (cs : Option Str) :
    generateNodesSpecC1 name command parent cs =
      RNode.parsed (_format_command (_get_context name command parent) true cs) ::
      ((_filter_commands (_get_context name command parent) cs).map
        (fun c => generateNodesSpecC1 c.name c
          (some (_get_context name command parent)) cs)).flatten := by
  rw [generateNodesSpecC1]
  congr 1
  congr 1
  exact List.attach_map_val _
    (fun c => generateNodesSpecC1 c.name c
      (some (_get_context name command parent)) cs)

theorem generate_nodes_none_eq_walkAll (command : Cmd) (name : Str)
    (parent : Option Ctx) :
    ClickDirective_generate_nodes name command parent true none =
      walkAllSubcommands name command parent := by
  rw [generate_nodes_eq, walkAll_eq, if_pos rfl]
  congr 1
  congr 1
  apply List.map_congr_left
  intro c hc
  exact generate_nodes_none_eq_walkAll c c.name (some _)
termination_by sizeOf command
decreasing_by
  exact sizeOf_lt_of_mem_commands (mem_filter_commands hc)

/-- Depth-2 example tree for C1: `root` has subcommand `a`; `a` has
subcommands `x` and `y`. -/
def xC1 : Cmd := leafCmd "x".data

/-- Second leaf of the C1 example tree. -/
def yC1 : Cmd := leafCmd "y".data

/-- Middle command of the C1 example tree. -/
def aCmdC1 : Cmd :=
  .mk "a".data [] [("x".data, xC1), ("y".data, yC1)] none none []

/-- Root of the C1 example tree. -/
def rootC1 : Cmd := .mk "root".data [] [("a".data, aCmdC1)] none none []

theorem walk_length_leaf (nm : Str) (cmd : Cmd) (pp : Option Ctx)
    (h : cmd.commands = []) :
    (ClickDirective_generate_nodes nm cmd pp true none).length = 1 := by
  rw [generate_nodes_eq, if_pos rfl]
  rw [show _filter_commands (_get_context nm cmd pp) none = [] from by
    unfold _filter_commands
    simp [_get_context, h]]
  rfl

theorem walk_length_a (pp : Option Ctx) :
    (ClickDirective_generate_nodes aCmdC1.name aCmdC1 pp true none).length = 3 := by
  rw [generate_nodes_eq, if_pos rfl]
  rw [show _filter_commands (_get_context aCmdC1.name aCmdC1 pp) none
      = [xC1, yC1] from by
    unfold _filter_commands
    rw [show ((_get_context aCmdC1.name aCmdC1 pp).command.commands.map Prod.snd)
        = [xC1, yC1] from rfl]
    rw [mergeSort_pair, if_pos (by decide)]]
  have h1 := walk_length_leaf xC1.name xC1
    (some (_get_context aCmdC1.name aCmdC1 pp)) rfl
  have h2 := walk_length_leaf yC1.name yC1
    (some (_get_context aCmdC1.name aCmdC1 pp)) rfl
  simp only [List.map_cons, List.map_nil, List.flatten_cons, List.flatten_nil,
    List.append_nil, List.length_cons, List.length_append, h1, h2]

theorem specWalk_length_a (pp : Option Ctx) :
    (generateNodesSpecC1 aCmdC1.name aCmdC1 pp (some "a".data)).length = 1 := by
  rw [generateNodesSpecC1_eq]
  rw [show _filter_commands (_get_context aCmdC1.name aCmdC1 pp) (some "a".data)
      = [] from rfl]
  rfl

/-- Counterexample to C1: on the depth-2 tree with explicit filter
`"a"`, the source's Tree Walker renders 4 commands (root, a, and both of
a's subcommands x and y) although the original filter selects no
subcommand of `a`; the spec-side walker that re-applies the original
filter at every level renders only 2.  So the set of subcommands
rendered below the top level is not the one selected by the original
filter. -/
theorem claim_C1_counterexample :
    (ClickDirective_generate_nodes "root".data rootC1 none true
      (some "a".data)).length = 4 ∧
    (generateNodesSpecC1 "root".data rootC1 none (some "a".data)).length = 2 ∧
    _filter_commands
      (_get_context "a".data aCmdC1
        (some (_get_context "root".data rootC1 none))) (some "a".data) = [] ∧
    ClickDirective_generate_nodes "root".data rootC1 none true (some "a".data) ≠
      generateNodesSpecC1 "root".data rootC1 none (some "a".data) := by
  have hcode : (ClickDirective_generate_nodes "root".data rootC1 none true
      (some "a".data)).length = 4 := by
    rw [generate_nodes_eq, if_pos rfl]
    rw [show _filter_commands (_get_context "root".data rootC1 none)
        (some "a".data) = [aCmdC1] from rfl]
    have ha := walk_length_a (some (_get_context "root".data rootC1 none))
    simp only [List.map_cons, List.map_nil, List.flatten_cons, List.flatten_nil,
      List.append_nil, List.length_cons, List.length_append, ha]
  have hspec : (generateNodesSpecC1 "root".data rootC1 none
      (some "a".data)).length = 2 := by
    rw [generateNodesSpecC1_eq]
    rw [show _filter_commands (_get_context "root".data rootC1 none)
        (some "a".data) = [aCmdC1] from rfl]
    have ha := specWalk_length_a (some (_get_context "root".data rootC1 none))
    simp only [List.map_cons, List.map_nil, List.flatten_cons, List.flatten_nil,
      List.append_nil, List.length_cons, List.length_append, ha]
  refine ⟨hcode, hspec, rfl, fun he => ?_⟩
  rw [he, hspec] at hcode
  exact absurd hcode (by decide)

/-- C1 (amended): when `show_nested` is set, the Tree Walker applies the
explicit `commands` filter at the top level only; every recursive call
passes no filter, so each nested level renders all of its subcommands
sorted by name, and the whole output coincides with the top-only-filter
walker. -/
theorem claim_C1_amended (name : Str) (command : Cmd) (parent : Option Ctx)
    (commands : Option Str) :
    ClickDirective_generate_nodes name command parent true commands =
      generateNodesTopOnly name command parent commands := by
  rw [generate_nodes_eq, if_pos rfl, generateNodesTopOnly]
  congr 1
  congr 1
  apply List.map_congr_left
  intro c _
  exact generate_nodes_none_eq_walkAll c c.name _

end SphinxClick
